import Mathlib

/-!
Verification of `Source/Readers/ReaderLib/ReaderShim.cpp`.

This file shallowly embeds the reader shim: the name→stream-id catalog built
by `ReaderShim::Init`, the epoch start (`StartMinibatchLoop` /
`StartDistributedMinibatchLoop`), the per-pull orchestration
(`ReaderShim::GetMinibatch`) with its validation checks, end-of-epoch latch,
prefetch relaunch, and the per-stream decode
(`ReaderShim::FillMatrixFromStream`) for the dense and sparse-CSC wire
formats.  The external producer (`m_reader`) is modelled by supplying the
minibatch that the in-flight `std::async` task would return; the launching of
a production task and the draining of the in-flight task are recorded as
events so that ordering properties can be stated.  `RuntimeError` calls are
modelled as structured errors carrying exactly the arguments the source
formats into the message; `assert` failures (active in the source, which does
not define `NDEBUG`) are a separate fatal outcome.
-/

set_option linter.unusedVariables false

namespace ReaderShimModel

/-- Integer code of `StorageType::dense` (the first enumerator of
`enum class StorageType`). -/
def StorageType.dense : Nat := 0

/-- Integer code of `StorageType::sparse_csc` (the second enumerator). -/
def StorageType.sparse_csc : Nat := 1

/-- One entry of `m_streams` (a `StreamDescription`): its name, id, the
number of elements of its sample layout (`m_sampleLayout->GetNumElements()`),
and its storage type code (`m_storageType`). -/
structure StreamDescription where
  name : String
  id : Nat
  sampleLayoutNumElements : Nat
  storageType : Nat
  deriving DecidableEq, Inhabited

/-- One entry of `Minibatch::m_data` (a `StreamMinibatch`): the layout's
parallel-sequence count (`m_layout->GetNumParallelSequences()`), the layout's
column count (`m_layout->GetNumCols()`), and the raw byte payload `m_data`
(a byte list; the C++ stores an untyped pointer). -/
structure StreamMinibatch where
  layoutNumParallelSequences : Nat
  layoutNumCols : Nat
  data : List Nat
  deriving DecidableEq, Inhabited

/-- The value returned by `m_reader->ReadMinibatch()`: the end-of-epoch flag
and the per-stream data, indexed by stream id. -/
structure Minibatch where
  endOfEpoch : Bool
  data : List StreamMinibatch
  deriving DecidableEq, Inhabited

/-- The information `GetMinibatch` reads from one destination matrix of
`StreamMinibatchInputs`: its device id (`GetDeviceId()`) and its current row
count (`GetNumRows()`, 0 meaning not yet shaped). -/
structure MatrixInfo where
  deviceId : Int
  numRows : Nat
  deriving DecidableEq, Inhabited

/-- Fatal outcomes of the shim, one constructor per failure site of the
source.  The `RuntimeError` sites are represented by constructors carrying
exactly the arguments formatted into the message:
`countMismatch` for `"Number of input nodes (%zd) does not match the expected
number (%zd)."`, `unknownInput` for `"Could not map input '%ls' to the
reader. Reader outputs only [%s]."`, `sizeMismatch` for `"Sample size (%d)
for input '%ls' does not match the expected size (%d)."`, and
`unsupportedStorage` for `"Storage type %d is not supported."`.
`assertionFailure` models a failing `assert` (the source does not define
`NDEBUG`, so asserts abort). -/
inductive ShimError where
  | countMismatch (declared expected : Nat)
  | unknownInput (name : String) (validInputs : String)
  | sizeMismatch (sampleSize : Nat) (name : String) (expectedSize : Nat)
  | unsupportedStorage (storageTypeValue : Nat)
  | assertionFailure
  deriving DecidableEq

/-- What `FillMatrixFromStream` installs into the destination matrix: either
the dense `SetValue(numRows, numCols, deviceId, data, matrixFlagNormal)` call
or the sparse `SetMatrixFromCSCFormat(columns, rows, values, nnzCount,
numRows, numCols)` call, with each argument recorded. -/
inductive MatrixContent where
  | dense (numRows numCols : Nat) (deviceId : Int) (values : List Nat)
  | sparseCSC (colOffsets rowIndices values : List Nat)
      (nnzCount numRows numCols : Nat)
  deriving DecidableEq

/-- Width in bytes of the element type: `ReaderShim<float>` uses 4,
`ReaderShim<double>` uses 8.  The development is parametric in this width. -/
def elemWidthFloat : Nat := 4

/-- Width in bytes of `CPUSPARSE_INDEX_TYPE` (a 32-bit integer), the
`IndexType` of the sparse row-index and column-offset arrays. -/
def indexWidth : Nat := 4

/-- Width in bytes of `size_t` on the 64-bit targets the reader is built
for; the sparse payload's leading `nnzCount` is read at this width. -/
def sizeTWidth : Nat := 8

/-- Reads a little-endian unsigned integer of `w` bytes from the front of
`bs`.  Bytes missing from the list are read as zero: the C++ performs an
unchecked pointer reinterpretation, and the model totalises reads past the
end of the supplied buffer. -/
def readLE : List Nat → Nat → Nat
  | _, 0 => 0
  | [], _ + 1 => 0
  | b :: bs, w + 1 => b + 256 * readLE bs w

/-- Reads `n` consecutive little-endian integers of `w` bytes each from the
front of `bs` (the typed-array view a reinterpreted pointer provides). -/
def readWords (w : Nat) : List Nat → Nat → List Nat
  | _, 0 => []
  | bs, n + 1 => readLE bs w :: readWords w (bs.drop w) n

/-- Embedding of `ReaderShim::FillMatrixFromStream`.  `storageType` is the
stream's storage type code, `ew` the element width in bytes, `deviceId` the
destination matrix's device (`matrix->GetDeviceId()`), `numRows` the row
count the caller computed.  Dense payloads are reinterpreted as
`numRows * numCols` elements.  Sparse-CSC payloads are reinterpreted as a
leading `size_t` non-zero count, then `nnzCount` element values, then
`nnzCount` row indices, then the `numCols + 1` column offsets, exactly at
the offsets the pointer arithmetic of the source produces.  Any other
storage type code fails with the unsupported-storage error carrying that
code. -/
def FillMatrixFromStream (storageType ew : Nat) (deviceId : Int)
    (numRows : Nat) (stream : StreamMinibatch) :
    Except ShimError MatrixContent :=
  let numCols := stream.layoutNumCols
  if storageType = StorageType.dense then
    .ok (.dense numRows numCols deviceId
      (readWords ew stream.data (numRows * numCols)))
  else if storageType = StorageType.sparse_csc then
    let nnzCount := readLE stream.data sizeTWidth
    let values := readWords ew (stream.data.drop sizeTWidth) nnzCount
    let rows := readWords indexWidth
      (stream.data.drop (sizeTWidth + ew * nnzCount)) nnzCount
    let columns := readWords indexWidth
      (stream.data.drop (sizeTWidth + ew * nnzCount + indexWidth * nnzCount))
      (numCols + 1)
    .ok (.sparseCSC columns rows values nnzCount numRows numCols)
  else
    .error (.unsupportedStorage storageType)

/-- Lexicographic strict comparison of character sequences by code point,
the order `std::map<wstring, ...>` keys are sorted by. -/
def charListLt : List Char → List Char → Bool
  | _, [] => false
  | [], _ :: _ => true
  | a :: as, b :: bs =>
    if a.toNat < b.toNat then true
    else if b.toNat < a.toNat then false
    else charListLt as bs

/-- The strict `operator<` on `std::wstring` keys: lexicographic by code
unit. -/
def strLt (a b : String) : Bool :=
  charListLt a.data b.data

/-- Embedding of `std::map<wstring, size_t>::insert`: keys are kept in
sorted order and an insertion with an already-present key leaves the map
unchanged (`insert` does not overwrite). -/
def mapInsert : List (String × Nat) → String → Nat → List (String × Nat)
  | [], k, v => [(k, v)]
  | (k', v') :: rest, k, v =>
    if strLt k k' then (k, v) :: (k', v') :: rest
    else if k = k' then (k', v') :: rest
    else (k', v') :: mapInsert rest k v

/-- Embedding of `std::map<wstring, size_t>::find` / `operator[]` lookup on
the model's sorted association list. -/
def mapFind : List (String × Nat) → String → Option Nat
  | [], _ => none
  | (k', v') :: rest, k => if k = k' then some v' else mapFind rest k

/-- The `m_nameToStreamId` map built by `ReaderShim::Init`: one
`insert(name, id)` per declared stream, in declaration order. -/
def initNameToStreamId (streams : List StreamDescription) :
    List (String × Nat) :=
  streams.foldl (fun m s => mapInsert m s.name s.id) []

/-- Embedding of `EnumerateInputs`: the loop appends `", "` before every
entry but the first and double-quotes each name, iterating the map in its
(sorted) order.  `first` is the loop's flag. -/
def EnumerateInputsAux (first : Bool) : List (String × Nat) → String
  | [] => ""
  | s :: rest =>
    (if first then "" else ", ") ++ "\"" ++ s.1 ++ "\"" ++
      EnumerateInputsAux false rest

/-- Embedding of the free function `EnumerateInputs`. -/
def EnumerateInputs (m : List (String × Nat)) : String :=
  EnumerateInputsAux true m

/-- The mutable members of `ReaderShim` the embedded operations touch:
`m_nameToStreamId`, `m_streams`, `m_endOfEpoch`, `m_numParallelSequences`,
and whether `m_prefetchTask` holds a not-yet-consumed task
(`m_prefetchTask.valid()`). -/
structure ShimState where
  nameToStreamId : List (String × Nat)
  streams : List StreamDescription
  endOfEpoch : Bool
  numParallelSequences : Nat
  prefetchValid : Bool
  deriving DecidableEq, Inhabited

/-- Producer-visible actions of one shim operation: `launchRead` is a
`std::async([...]{ return m_reader->ReadMinibatch(); })` call creating the
production task, `fetchGet` is the `m_prefetchTask.get()` draining the
in-flight task. -/
inductive Event where
  | fetchGet
  | launchRead
  deriving DecidableEq

/-- Embedding of `ReaderShim::Init` as far as it affects the members above:
it assigns `m_numParallelSequences` from the first entry of the configured
`nbruttsineachrecurrentiter` array (whose parsed default is the one-element
array `[1]`), and builds `m_nameToStreamId` from the streams the factory's
reader declares.  `st` carries the values of the members `Init` does not
assign (the source leaves `m_endOfEpoch` unassigned until an epoch is
started). -/
def Init (nbrutts : List Nat) (streams : List StreamDescription)
    (st : ShimState) : ShimState :=
  { st with
    numParallelSequences := nbrutts.headD 0
    nameToStreamId := initNameToStreamId streams
    streams := streams }

/-- Embedding of `ReaderShim::StartDistributedMinibatchLoop`: the epoch
configuration is forwarded to the external producer (not modelled beyond the
call), `m_endOfEpoch` is reset to `false`, and production of the first batch
is launched. -/
def StartDistributedMinibatchLoop (st : ShimState) : ShimState × List Event :=
  ({ st with endOfEpoch := false, prefetchValid := true }, [.launchRead])

/-- Embedding of `ReaderShim::StartMinibatchLoop`, which delegates to
`StartDistributedMinibatchLoop` with subset 0 of 1. -/
def StartMinibatchLoop (st : ShimState) : ShimState × List Event :=
  StartDistributedMinibatchLoop st

/-- Processing of one destination inside the `GetMinibatch` decode loop:
resolve the name in `m_nameToStreamId` (failing with the unknown-input error
that enumerates the valid inputs), read the stream's layout (which updates
`m_numParallelSequences` — the first component records that assignment),
compute `rowNumber` from the stream's declared sample layout, perform the
sample-size check against the destination's current row count, and dispatch
to `FillMatrixFromStream`. -/
def decodeOne (catalog : List (String × Nat))
    (streams : List StreamDescription) (ew : Nat) (fetched : Minibatch)
    (entry : String × MatrixInfo) :
    Option Nat × Except ShimError (String × MatrixContent) :=
  match mapFind catalog entry.1 with
  | none => (none, .error (.unknownInput entry.1 (EnumerateInputs catalog)))
  | some streamId =>
    let stream := fetched.data.getD streamId default
    let nps := stream.layoutNumParallelSequences
    let rowNumber := (streams.getD streamId default).sampleLayoutNumElements
    let expectedRowNumber := entry.2.numRows
    if expectedRowNumber > 0 ∧ expectedRowNumber ≠ rowNumber then
      (some nps, .error (.sizeMismatch rowNumber entry.1 expectedRowNumber))
    else
      match FillMatrixFromStream (streams.getD streamId default).storageType
          ew entry.2.deviceId rowNumber stream with
      | .ok content => (some nps, .ok (entry.1, content))
      | .error e => (some nps, .error e)

/-- The `for (const auto& mx : matrices)` decode loop of `GetMinibatch`:
destinations are processed in iteration order; the first failing destination
aborts the loop (its exception propagates), keeping the fills already
performed; the returned `Nat` is the final `m_numParallelSequences`. -/
def decodeLoop (catalog : List (String × Nat))
    (streams : List StreamDescription) (ew : Nat) (fetched : Minibatch) :
    List (String × MatrixInfo) → Nat →
      Except ShimError Unit × Nat × List (String × MatrixContent)
  | [], nps => (.ok (), nps, [])
  | e :: rest, nps =>
    match decodeOne catalog streams ew fetched e with
    | (npsOpt, .ok w) =>
      let r := decodeLoop catalog streams ew fetched rest (npsOpt.getD nps)
      (r.1, r.2.1, w :: r.2.2)
    | (npsOpt, .error err) => (.error err, npsOpt.getD nps, [])

/-- Everything observable about one `GetMinibatch` call: its return value or
fatal outcome, the shim state after the call, the producer-visible events in
order, and the destination fills performed (name paired with installed
content, in order). -/
structure MBOutcome where
  result : Except ShimError Bool
  state : ShimState
  events : List Event
  writes : List (String × MatrixContent)

/-- Embedding of `ReaderShim::GetMinibatch`.  `matrices` is the destination
map in its iteration order; `fetched` is the minibatch the in-flight
production task returns when drained.  The steps, in source order: the
input-count check; the `m_endOfEpoch` early return; the same-device check
over all destinations (`assert(false)` on mismatch); the
`assert(m_prefetchTask.valid())` guard; draining the task; latching
`m_endOfEpoch` and returning `false` for the terminal empty batch; the
decode loop when data is present; relaunching production unless the epoch
ended; and returning whether the batch carried data. -/
def GetMinibatch (ew : Nat) (st : ShimState)
    (matrices : List (String × MatrixInfo)) (fetched : Minibatch) :
    MBOutcome :=
  if matrices.length ≠ st.nameToStreamId.length then
    ⟨.error (.countMismatch matrices.length st.nameToStreamId.length),
      st, [], []⟩
  else if st.endOfEpoch then
    ⟨.ok false, st, [], []⟩
  else
    let deviceId := ((matrices.head?).map fun mx => mx.2.deviceId).getD 0
    if matrices.any fun mx => mx.2.deviceId != deviceId then
      ⟨.error .assertionFailure, st, [], []⟩
    else if !st.prefetchValid then
      ⟨.error .assertionFailure, st, [], []⟩
    else
      let st1 : ShimState :=
        if fetched.endOfEpoch then
          { st with endOfEpoch := true, prefetchValid := false }
        else { st with prefetchValid := false }
      if fetched.endOfEpoch && fetched.data.isEmpty then
        ⟨.ok false, st1, [.fetchGet], []⟩
      else
        let dec :=
          if fetched.data.isEmpty then
            (Except.ok (), st.numParallelSequences,
              ([] : List (String × MatrixContent)))
          else
            decodeLoop st.nameToStreamId st.streams ew fetched matrices
              st.numParallelSequences
        let st2 := { st1 with numParallelSequences := dec.2.1 }
        match dec.1 with
        | .error e => ⟨.error e, st2, [.fetchGet], dec.2.2⟩
        | .ok _ =>
          if st2.endOfEpoch then
            ⟨.ok (!fetched.data.isEmpty), st2, [.fetchGet], dec.2.2⟩
          else
            ⟨.ok (!fetched.data.isEmpty),
              { st2 with prefetchValid := true },
              [.fetchGet, .launchRead], dec.2.2⟩

/-- Embedding of `ReaderShim::GetNumParallelSequences`: returns the member
as-is. -/
def GetNumParallelSequences (st : ShimState) : Nat :=
  st.numParallelSequences

/-- Driver replaying a sequence of `GetMinibatch` calls (each given as the
destination map together with the batch its drained task yields), collecting
the final state, all producer-visible events, and the per-call results. -/
def runGets (ew : Nat) :
    ShimState → List (List (String × MatrixInfo) × Minibatch) →
      ShimState × List Event × List (Except ShimError Bool)
  | st, [] => (st, [], [])
  | st, (ms, f) :: rest =>
    let o := GetMinibatch ew st ms f
    let r := runGets ew o.state rest
    (r.1, o.events ++ r.2.1, o.result :: r.2.2)

/-- Producer-visible events of a whole epoch run, numbered: `launch n` is
the `std::async` call creating the production task for batch `n` (the
producer yields batches in order, and each call launches at most one task,
so the task launched during call `k` produces batch `k + 1`); `fetch n` is
the drain of batch `n`; `callReturn k` is the normal return of the `k`-th
`GetMinibatch` call. -/
inductive TEvent where
  | launch : Nat → TEvent
  | fetch : Nat → TEvent
  | callReturn : Nat → TEvent
  deriving DecidableEq

/-- Numbers the events of the `k`-th `GetMinibatch` call: its drain consumes
batch `k` and the task it launches produces batch `k + 1`. -/
def tagEvents (k : Nat) (evs : List Event) : List TEvent :=
  evs.map fun e =>
    match e with
    | .fetchGet => .fetch k
    | .launchRead => .launch (k + 1)

/-- Replays `GetMinibatch` calls against the successive producer batches,
emitting the numbered event trace.  A call that returns normally is followed
by its `callReturn` marker and the run continues on the post-call state; a
fatal call ends the run (its exception propagates, so it never returns). -/
def runTrace (ew : Nat) (ms : List (String × MatrixInfo)) :
    ShimState → Nat → List Minibatch → List TEvent
  | _, _, [] => []
  | st, k, b :: bs =>
    let o := GetMinibatch ew st ms b
    match o.result with
    | .ok _ => tagEvents k o.events ++ .callReturn k ::
        runTrace ew ms o.state (k + 1) bs
    | .error _ => tagEvents k o.events

/-- Event trace of one epoch: `StartDistributedMinibatchLoop` launches the
task producing batch 0, then the `GetMinibatch` calls run in sequence. -/
def epochTrace (ew : Nat) (st : ShimState)
    (ms : List (String × MatrixInfo)) (batches : List Minibatch) :
    List TEvent :=
  .launch 0 :: runTrace ew ms (StartDistributedMinibatchLoop st).1 0 batches

/-- Little-endian encoding of `v` into `w` bytes (test-harness inverse of
`readLE`, used to state round-trip properties of the wire-format parser). -/
def encodeLE : Nat → Nat → List Nat
  | _, 0 => []
  | v, w + 1 => v % 256 :: encodeLE (v / 256) w

/-- Encodes each value as `w` little-endian bytes, concatenated. -/
def encodeWords (w : Nat) : List Nat → List Nat
  | [] => []
  | v :: vs => encodeLE v w ++ encodeWords w vs

/-- The sparse-CSC wire layout as the specification states it:
`[nnz][values][rowIndices][colOffsets]`, with `nnz` a `size_t`, values of
element width `ew`, and indices of the fixed index width. -/
def encodeSparseCSC (ew nnzCount : Nat)
    (values rowIndices colOffsets : List Nat) : List Nat :=
  encodeLE nnzCount sizeTWidth ++ encodeWords ew values ++
    encodeWords indexWidth rowIndices ++ encodeWords indexWidth colOffsets

/-- Specification-side rendering of a catalog's names, following the spec's
words for the unknown-input diagnostic: every valid name double-quoted, the
names separated by commas, in the catalog's (sorted) order.  Stated
independently of `EnumerateInputs` so the two can be compared. -/
def quotedJoinSpec : List (String × Nat) → String
  | [] => ""
  | [s] => "\"" ++ s.1 ++ "\""
  | s :: rest => "\"" ++ s.1 ++ "\"" ++ ", " ++ quotedJoinSpec rest

/-- Boolean success test for an `Except` outcome. -/
def ExceptOk {α : Type} : Except ShimError α → Bool
  | .ok _ => true
  | .error _ => false

/-- The parallel-sequence count the decode loop observes for destination
`name`: that of the layout of the stream the catalog resolves `name` to. -/
def streamNpsOf (catalog : List (String × Nat)) (fetched : Minibatch)
    (name : String) : Nat :=
  (fetched.data.getD ((mapFind catalog name).getD 0)
    default).layoutNumParallelSequences

/-- The value of `m_numParallelSequences` after the decode loop processes
the listed destinations in order (each successful destination overwrites
it). -/
def finalNps (catalog : List (String × Nat)) (fetched : Minibatch) :
    List (String × MatrixInfo) → Nat → Nat
  | [], nps => nps
  | e :: rest, _ =>
    finalNps catalog fetched rest (streamNpsOf catalog fetched e.1)

/-- Equality of `Except` values is decidable when both components' are. -/
instance {ε α : Type} [DecidableEq ε] [DecidableEq α] :
    DecidableEq (Except ε α) := fun a b =>
  match a, b with
  | .ok x, .ok y =>
    if h : x = y then .isTrue (by rw [h]) else .isFalse (by simp [h])
  | .ok _, .error _ => .isFalse (by simp)
  | .error _, .ok _ => .isFalse (by simp)
  | .error e, .error f =>
    if h : e = f then .isTrue (by rw [h]) else .isFalse (by simp [h])

theorem charListLt_irrefl : ∀ l : List Char, charListLt l l = false
  | [] => rfl
  | a :: as => by
    simp only [charListLt, lt_irrefl, if_false]
    exact charListLt_irrefl as

theorem charListLt_trans : ∀ {a b c : List Char},
    charListLt a b = true → charListLt b c = true → charListLt a c = true
  | _, [], _, h1, _ => by simp [charListLt] at h1
  | _, _ :: _, [], _, h2 => by simp [charListLt] at h2
  | [], _ :: _, _ :: _, _, _ => rfl
  | x :: as, y :: bs, z :: cs, h1, h2 => by
    simp only [charListLt] at h1 h2 ⊢
    rcases Nat.lt_trichotomy x.toNat y.toNat with hxy | hxy | hxy
    · rcases Nat.lt_trichotomy y.toNat z.toNat with hyz | hyz | hyz
      · simp [Nat.lt_trans hxy hyz]
      · simp [hyz ▸ hxy]
      · simp [hyz, Nat.lt_asymm hyz] at h2
    · rcases Nat.lt_trichotomy y.toNat z.toNat with hyz | hyz | hyz
      · simp [hxy ▸ hyz]
      · have hxz : x.toNat = z.toNat := hxy.trans hyz
        simp [hxy, Nat.lt_irrefl, hyz, hxz] at h1 h2 ⊢
        exact charListLt_trans h1 h2
      · simp [hyz, Nat.lt_asymm hyz] at h2
    · simp [hxy, Nat.lt_asymm hxy] at h1

theorem charListLt_total : ∀ {a b : List Char},
    charListLt a b = false → charListLt b a = false → a = b
  | [], [], _, _ => rfl
  | [], _ :: _, h1, _ => by simp [charListLt] at h1
  | _ :: _, [], _, h2 => by simp [charListLt] at h2
  | x :: as, y :: bs, h1, h2 => by
    simp only [charListLt] at h1 h2
    rcases Nat.lt_trichotomy x.toNat y.toNat with hxy | hxy | hxy
    · simp [hxy] at h1
    · have hc : x = y := by
        apply Char.eq_of_val_eq
        apply UInt32.ext
        exact hxy
      subst hc
      simp only [Nat.lt_irrefl, if_false] at h1 h2
      rw [charListLt_total h1 h2]
    · simp [hxy] at h2

theorem strLt_irrefl (a : String) : strLt a a = false :=
  charListLt_irrefl a.data

theorem strLt_trans {a b c : String} (h1 : strLt a b = true)
    (h2 : strLt b c = true) : strLt a c = true :=
  charListLt_trans h1 h2

theorem strLt_total {a b : String} (h1 : strLt a b = false)
    (h2 : strLt b a = false) : a = b := by
  have h := charListLt_total h1 h2
  cases a
  cases b
  exact congrArg String.mk h

theorem strLt_ne {a b : String} (h : strLt a b = true) : a ≠ b := by
  intro he
  rw [he, strLt_irrefl] at h
  exact Bool.false_ne_true h

/-- Keys of the association-list model of `std::map` are strictly sorted. -/
def KeysSorted (m : List (String × Nat)) : Prop :=
  m.Pairwise fun a b => strLt a.1 b.1 = true

theorem mapInsert_mem {m : List (String × Nat)} {k : String} {v : Nat}
    {x : String × Nat} (h : x ∈ mapInsert m k v) : x = (k, v) ∨ x ∈ m := by
  induction m with
  | nil =>
    simp [mapInsert] at h
    exact Or.inl h
  | cons a rest ih =>
    obtain ⟨k', v'⟩ := a
    simp only [mapInsert] at h
    split at h
    · rcases List.mem_cons.mp h with h | h
      · exact Or.inl h
      · exact Or.inr h
    · split at h
      · exact Or.inr h
      · rcases List.mem_cons.mp h with h | h
        · exact Or.inr (List.mem_cons.mpr (Or.inl h))
        · rcases ih h with h | h
          · exact Or.inl h
          · exact Or.inr (List.mem_cons.mpr (Or.inr h))

theorem mapInsert_sorted : ∀ {m : List (String × Nat)} (k : String) (v : Nat),
    KeysSorted m → KeysSorted (mapInsert m k v)
  | [], k, v, _ => List.pairwise_singleton _ _
  | (k', v') :: rest, k, v, h => by
    rcases List.pairwise_cons.mp h with ⟨hhead, htail⟩
    simp only [mapInsert]
    split
    · rename_i hlt
      refine List.pairwise_cons.mpr ⟨?_, h⟩
      intro x hx
      rcases List.mem_cons.mp hx with hx | hx
      · rw [hx]
        exact hlt
      · exact strLt_trans hlt (hhead x hx)
    · split
      · exact h
      · rename_i hnlt hne
        refine List.pairwise_cons.mpr ⟨?_, mapInsert_sorted k v htail⟩
        intro x hx
        rcases mapInsert_mem hx with hx | hx
        · rw [hx]
          rcases Bool.eq_false_or_eq_true (strLt k' k) with hk | hk
          · exact hk
          · exact absurd (strLt_total (Bool.of_not_eq_true hnlt) hk) hne
        · exact hhead x hx

theorem mapFind_eq_none_of_ne {m : List (String × Nat)} {k : String}
    (h : ∀ x ∈ m, k ≠ x.1) : mapFind m k = none := by
  induction m with
  | nil => rfl
  | cons a rest ih =>
    simp only [mapFind]
    rw [if_neg (h a (List.mem_cons_self _ _)), ih]
    intro x hx
    exact h x (List.mem_cons_of_mem _ hx)

theorem mapFind_mapInsert : ∀ {m : List (String × Nat)} (k q : String)
    (v : Nat), KeysSorted m →
    mapFind (mapInsert m k v) q =
      if q = k then some ((mapFind m k).getD v) else mapFind m q
  | [], k, q, v, _ => by
    simp [mapInsert, mapFind]
  | (k', v') :: rest, k, q, v, h => by
    rcases List.pairwise_cons.mp h with ⟨hhead, htail⟩
    simp only [mapInsert]
    split
    · rename_i hlt
      have hknone : mapFind ((k', v') :: rest) k = none := by
        apply mapFind_eq_none_of_ne
        intro x hx
        rcases List.mem_cons.mp hx with hx | hx
        · rw [hx]
          exact strLt_ne hlt
        · exact strLt_ne (strLt_trans hlt (hhead x hx))
      rw [hknone]
      simp only [mapFind, Option.getD_none]
    · split
      · rename_i hnlt heq
        subst heq
        by_cases hq : q = k
        · subst hq
          simp [mapFind]
        · simp [mapFind, hq]
      · rename_i hnlt hne
        simp only [mapFind]
        by_cases hq : q = k'
        · subst hq
          rw [if_pos rfl, if_neg, if_pos rfl]
          intro hqk
          exact hne hqk.symm
        · rw [if_neg hq, mapFind_mapInsert k q v htail, if_neg hne, if_neg hq]

theorem initNameToStreamId_aux_sorted (ss : List StreamDescription)
    (acc : List (String × Nat)) (h : KeysSorted acc) :
    KeysSorted (ss.foldl (fun m s => mapInsert m s.name s.id) acc) := by
  induction ss generalizing acc with
  | nil => exact h
  | cons s rest ih => exact ih _ (mapInsert_sorted _ _ h)

theorem initNameToStreamId_sorted (ss : List StreamDescription) :
    KeysSorted (initNameToStreamId ss) :=
  initNameToStreamId_aux_sorted ss [] List.Pairwise.nil

theorem mapFind_init_aux (ss : List StreamDescription)
    (acc : List (String × Nat)) (q : String) (h : KeysSorted acc) :
    mapFind (ss.foldl (fun m s => mapInsert m s.name s.id) acc) q =
      match mapFind acc q with
      | some v => some v
      | none => (ss.find? fun s => s.name == q).map StreamDescription.id := by
  induction ss generalizing acc with
  | nil =>
    simp only [List.foldl_nil, List.find?_nil, Option.map_none']
    cases mapFind acc q <;> rfl
  | cons s rest ih =>
    simp only [List.foldl_cons]
    rw [ih _ (mapInsert_sorted _ _ h)]
    rw [mapFind_mapInsert _ _ _ h]
    by_cases hq : q = s.name
    · subst hq
      rw [if_pos rfl, List.find?_cons_of_pos _ (by simp)]
      cases hacc : mapFind acc s.name <;> simp [hacc]
    · rw [if_neg hq, List.find?_cons_of_neg _ (by
        simp only [beq_iff_eq]
        exact fun hc => hq hc.symm)]

theorem mapFind_init (ss : List StreamDescription) (q : String) :
    mapFind (initNameToStreamId ss) q =
      (ss.find? fun s => s.name == q).map StreamDescription.id := by
  have h := mapFind_init_aux ss [] q List.Pairwise.nil
  simpa [mapFind] using h

theorem encodeLE_length : ∀ (v w : Nat), (encodeLE v w).length = w
  | _, 0 => rfl
  | v, w + 1 => by
    simp only [encodeLE, List.length_cons, encodeLE_length (v / 256) w]

theorem drop_append_len {α : Type} (l₁ l₂ : List α) (n : Nat)
    (h : n = l₁.length) : (l₁ ++ l₂).drop n = l₂ := by
  subst h
  simp

theorem readLE_encodeLE : ∀ (w v : Nat) (rest : List Nat), v < 256 ^ w →
    readLE (encodeLE v w ++ rest) w = v
  | 0, v, rest, h => by
    have hv : v = 0 := Nat.lt_one_iff.mp (by simpa using h)
    simp [hv, encodeLE, readLE]
  | w + 1, v, rest, h => by
    have hd : v / 256 < 256 ^ w := by
      rw [Nat.div_lt_iff_lt_mul (by norm_num)]
      calc v < 256 ^ (w + 1) := h
        _ = 256 ^ w * 256 := by rw [pow_succ]
    show readLE ((v % 256 :: encodeLE (v / 256) w) ++ rest) (w + 1) = v
    rw [List.cons_append]
    show v % 256 + 256 * readLE (encodeLE (v / 256) w ++ rest) w = v
    rw [readLE_encodeLE w (v / 256) rest hd]
    exact Nat.mod_add_div v 256

theorem encodeWords_length (w : Nat) : ∀ vs : List Nat,
    (encodeWords w vs).length = w * vs.length
  | [] => by simp [encodeWords]
  | v :: vs => by
    simp only [encodeWords, List.length_append, encodeLE_length,
      encodeWords_length w vs, List.length_cons]
    ring

theorem readWords_encodeWords (w : Nat) : ∀ (vs rest : List Nat),
    (∀ v ∈ vs, v < 256 ^ w) →
    readWords w (encodeWords w vs ++ rest) vs.length = vs
  | [], rest, _ => rfl
  | v :: vs, rest, h => by
    simp only [encodeWords, List.length_cons, readWords, List.append_assoc,
      List.cons.injEq]
    refine ⟨?_, ?_⟩
    · exact readLE_encodeLE w v _ (h v (List.mem_cons_self _ _))
    · rw [drop_append_len _ _ _ (encodeLE_length v w).symm]
      exact readWords_encodeWords w vs rest
        fun x hx => h x (List.mem_cons_of_mem _ hx)

/-- Parsing a well-formed sparse-CSC payload recovers exactly the encoded
non-zero count, values, row indices and column offsets, installed with the
caller-supplied row count and the layout's column count. -/
theorem fill_sparse (ew numRows : Nat) (deviceId : Int)
    (nps numCols nnz : Nat) (values rows cols : List Nat)
    (hv : values.length = nnz) (hr : rows.length = nnz)
    (hc : cols.length = numCols + 1) (hnnz : nnz < 256 ^ sizeTWidth)
    (hvb : ∀ v ∈ values, v < 256 ^ ew)
    (hrb : ∀ v ∈ rows, v < 256 ^ indexWidth)
    (hcb : ∀ v ∈ cols, v < 256 ^ indexWidth) :
    FillMatrixFromStream StorageType.sparse_csc ew deviceId numRows
      ⟨nps, numCols, encodeSparseCSC ew nnz values rows cols⟩ =
      .ok (.sparseCSC cols rows values nnz numRows numCols) := by
  have e2len : (encodeWords ew values).length = ew * nnz := by
    rw [encodeWords_length, hv]
  have e3len : (encodeWords indexWidth rows).length = indexWidth * nnz := by
    rw [encodeWords_length, hr]
  have hdata :
      encodeLE nnz sizeTWidth ++ encodeWords ew values ++
        encodeWords indexWidth rows ++ encodeWords indexWidth cols =
      encodeLE nnz sizeTWidth ++ (encodeWords ew values ++
        (encodeWords indexWidth rows ++ encodeWords indexWidth cols)) := by
    simp [List.append_assoc]
  simp only [FillMatrixFromStream, encodeSparseCSC]
  rw [if_neg (by decide), if_pos trivial, hdata]
  have hnnzr :
      readLE (encodeLE nnz sizeTWidth ++ (encodeWords ew values ++
        (encodeWords indexWidth rows ++ encodeWords indexWidth cols)))
        sizeTWidth = nnz := readLE_encodeLE _ _ _ hnnz
  have d1 :
      (encodeLE nnz sizeTWidth ++ (encodeWords ew values ++
        (encodeWords indexWidth rows ++ encodeWords indexWidth cols))).drop
        sizeTWidth =
      encodeWords ew values ++
        (encodeWords indexWidth rows ++ encodeWords indexWidth cols) :=
    drop_append_len _ _ _ (encodeLE_length nnz sizeTWidth).symm
  have d2 :
      (encodeLE nnz sizeTWidth ++ (encodeWords ew values ++
        (encodeWords indexWidth rows ++ encodeWords indexWidth cols))).drop
        (sizeTWidth + ew * nnz) =
      encodeWords indexWidth rows ++ encodeWords indexWidth cols := by
    rw [← List.append_assoc]
    exact drop_append_len _ _ _
      (by rw [List.length_append, encodeLE_length, e2len])
  have d3 :
      (encodeLE nnz sizeTWidth ++ (encodeWords ew values ++
        (encodeWords indexWidth rows ++ encodeWords indexWidth cols))).drop
        (sizeTWidth + ew * nnz + indexWidth * nnz) =
      encodeWords indexWidth cols := by
    rw [← List.append_assoc, ← List.append_assoc]
    exact drop_append_len _ _ _
      (by rw [List.length_append, List.length_append, encodeLE_length,
        e2len, e3len])
  have rv : readWords ew (encodeWords ew values ++
      (encodeWords indexWidth rows ++ encodeWords indexWidth cols)) nnz =
      values := by
    rw [← hv]
    exact readWords_encodeWords ew values _ hvb
  have rr : readWords indexWidth (encodeWords indexWidth rows ++
      encodeWords indexWidth cols) nnz = rows := by
    rw [← hr]
    exact readWords_encodeWords indexWidth rows _ hrb
  have rc : readWords indexWidth (encodeWords indexWidth cols)
      (numCols + 1) = cols := by
    rw [← hc, ← List.append_nil (encodeWords indexWidth cols)]
    exact readWords_encodeWords indexWidth cols [] hcb
  rw [hnnzr, d1, d2, d3, rv, rr, rc]

theorem decodeOne_fst (c : List (String × Nat)) (s : List StreamDescription)
    (ew : Nat) (f : Minibatch) (e : String × MatrixInfo) :
    (decodeOne c s ew f e).1 =
      (mapFind c e.1).map fun streamId =>
        (f.data.getD streamId default).layoutNumParallelSequences := by
  simp only [decodeOne]
  cases h : mapFind c e.1 with
  | none => rfl
  | some streamId =>
    simp only [Option.map_some']
    split
    · rfl
    · split <;> rfl

theorem decodeOne_resolved {c : List (String × Nat)}
    {s : List StreamDescription} {ew : Nat} {f : Minibatch}
    {e : String × MatrixInfo}
    (h : ExceptOk (decodeOne c s ew f e).2 = true) :
    ∃ streamId, mapFind c e.1 = some streamId := by
  cases hm : mapFind c e.1 with
  | none =>
    exfalso
    simp only [decodeOne, hm, ExceptOk] at h
    exact Bool.false_ne_true h
  | some streamId => exact ⟨streamId, rfl⟩

theorem decodeOne_fst_of_ok {c : List (String × Nat)}
    {s : List StreamDescription} {ew : Nat} {f : Minibatch}
    {e : String × MatrixInfo}
    (h : ExceptOk (decodeOne c s ew f e).2 = true) :
    (decodeOne c s ew f e).1 = some (streamNpsOf c f e.1) := by
  obtain ⟨streamId, hm⟩ := decodeOne_resolved h
  rw [decodeOne_fst, hm, streamNpsOf, hm]
  rfl

theorem decodeLoop_ok (c : List (String × Nat))
    (s : List StreamDescription) (ew : Nat) (f : Minibatch) :
    ∀ (ms : List (String × MatrixInfo)) (nps : Nat),
    (∀ e ∈ ms, ExceptOk (decodeOne c s ew f e).2 = true) →
    (decodeLoop c s ew f ms nps).1 = .ok () ∧
    (decodeLoop c s ew f ms nps).2.1 = finalNps c f ms nps ∧
    (decodeLoop c s ew f ms nps).2.2.length = ms.length
  | [], nps, _ => ⟨rfl, rfl, rfl⟩
  | e :: rest, nps, h => by
    have he := h e (List.mem_cons_self _ _)
    have hrest := fun x hx => h x (List.mem_cons_of_mem e hx)
    obtain ⟨w, hw⟩ : ∃ w, (decodeOne c s ew f e).2 = .ok w := by
      cases hd : (decodeOne c s ew f e).2 with
      | ok w => exact ⟨w, rfl⟩
      | error err =>
        rw [hd] at he
        exact absurd he (by simp [ExceptOk])
    have hfst := decodeOne_fst_of_ok he
    have ih := decodeLoop_ok c s ew f rest (streamNpsOf c f e.1) hrest
    simp only [decodeLoop]
    cases hd : decodeOne c s ew f e with
    | mk npsOpt res =>
      rw [hd] at hw hfst
      simp only at hw hfst
      subst hw
      subst hfst
      simp only [Option.getD_some, finalNps, List.length_cons]
      exact ⟨ih.1, ih.2.1, by rw [ih.2.2]⟩

theorem decodeLoop_error {c : List (String × Nat)}
    {s : List StreamDescription} {ew : Nat} {f : Minibatch}
    {e0 : String × MatrixInfo} {err : ShimError}
    (herr : (decodeOne c s ew f e0).2 = .error err) :
    ∀ {pre : List (String × MatrixInfo)}
      (post : List (String × MatrixInfo)) (nps : Nat),
    (∀ e ∈ pre, ExceptOk (decodeOne c s ew f e).2 = true) →
    (decodeLoop c s ew f (pre ++ e0 :: post) nps).1 = .error err ∧
    (decodeLoop c s ew f (pre ++ e0 :: post) nps).2.2.length = pre.length
  | [], post, nps, _ => by
    simp only [List.nil_append, decodeLoop]
    cases hd : decodeOne c s ew f e0 with
    | mk npsOpt res =>
      rw [hd] at herr
      simp only at herr
      subst herr
      exact ⟨rfl, rfl⟩
  | e :: pre, post, nps, h => by
    have he := h e (List.mem_cons_self _ _)
    have hpre := fun x hx => h x (List.mem_cons_of_mem e hx)
    obtain ⟨w, hw⟩ : ∃ w, (decodeOne c s ew f e).2 = .ok w := by
      cases hd : (decodeOne c s ew f e).2 with
      | ok w => exact ⟨w, rfl⟩
      | error err2 =>
        rw [hd] at he
        exact absurd he (by simp [ExceptOk])
    have ih := decodeLoop_error herr post
      ((decodeOne c s ew f e).1.getD nps) hpre
    simp only [List.cons_append, decodeLoop]
    cases hd : decodeOne c s ew f e with
    | mk npsOpt res =>
      rw [hd] at hw
      simp only at hw
      subst hw
      rw [hd] at ih
      simp only at ih
      simp only [List.length_cons]
      exact ⟨ih.1, congrArg (· + 1) ih.2⟩

/-- Behaviour of one `GetMinibatch` call that passes all validation and
whose decode loop (if data is present) succeeds on every destination:
it returns `ok` of whether the batch carried data, drains the in-flight
task, relaunches production exactly when the batch did not signal
end-of-epoch, fills every destination when data is present, latches the
end-of-epoch flag from the batch, and leaves the catalog untouched. -/
theorem getMinibatch_post (ew : Nat) (st : ShimState)
    (ms : List (String × MatrixInfo)) (fetched : Minibatch)
    (hc : ms.length = st.nameToStreamId.length)
    (heoe : st.endOfEpoch = false)
    (hdev : (ms.any fun mx => mx.2.deviceId !=
        ((ms.head?.map fun mx => mx.2.deviceId).getD 0)) = false)
    (hpf : st.prefetchValid = true)
    (hok : ∀ e ∈ ms, ExceptOk
        (decodeOne st.nameToStreamId st.streams ew fetched e).2 = true) :
    (GetMinibatch ew st ms fetched).result = .ok (!fetched.data.isEmpty) ∧
    (GetMinibatch ew st ms fetched).events =
      (if fetched.endOfEpoch then [Event.fetchGet]
       else [Event.fetchGet, Event.launchRead]) ∧
    (GetMinibatch ew st ms fetched).writes.length =
      (if fetched.data.isEmpty then 0 else ms.length) ∧
    (GetMinibatch ew st ms fetched).state.endOfEpoch = fetched.endOfEpoch ∧
    (GetMinibatch ew st ms fetched).state.prefetchValid =
      !fetched.endOfEpoch ∧
    (GetMinibatch ew st ms fetched).state.nameToStreamId =
      st.nameToStreamId ∧
    (GetMinibatch ew st ms fetched).state.streams = st.streams ∧
    (GetMinibatch ew st ms fetched).state.numParallelSequences =
      (if fetched.data.isEmpty then st.numParallelSequences
       else finalNps st.nameToStreamId fetched ms st.numParallelSequences) := by
  obtain ⟨hl1, hl2, hl3⟩ := decodeLoop_ok st.nameToStreamId st.streams ew
    fetched ms st.numParallelSequences hok
  cases hfe : fetched.endOfEpoch <;> cases hfd : fetched.data.isEmpty <;>
    simp only [GetMinibatch, hc, heoe, hdev, hpf, hfe, hfd, ne_eq,
      not_true_eq_false, Bool.false_eq_true, if_false, ite_false, ite_true,
      Bool.not_true, Bool.false_and, Bool.true_and, Bool.and_self,
      Bool.and_false, Bool.and_true, if_true, Bool.not_false, hl1, hl2, hl3,
      List.length_nil, and_self, and_true, true_and]

/-- A call made while `m_endOfEpoch` is latched (and passing the input-count
check) returns `false` and does nothing at all: no event, no write, no state
change. -/
theorem getMinibatch_eoe (ew : Nat) (st : ShimState)
    (ms : List (String × MatrixInfo)) (fetched : Minibatch)
    (hc : ms.length = st.nameToStreamId.length)
    (heoe : st.endOfEpoch = true) :
    GetMinibatch ew st ms fetched = ⟨.ok false, st, [], []⟩ := by
  simp only [GetMinibatch, hc, heoe, ne_eq, not_true_eq_false, if_false,
    ite_true, ite_false]

theorem runGets_eoe (ew : Nat) (st : ShimState)
    (heoe : st.endOfEpoch = true) :
    ∀ inputs : List (List (String × MatrixInfo) × Minibatch),
    (∀ p ∈ inputs, p.1.length = st.nameToStreamId.length) →
    runGets ew st inputs = (st, [], inputs.map fun _ => .ok false)
  | [], _ => rfl
  | (ms, f) :: rest, h => by
    have hcall := getMinibatch_eoe ew st ms f
      (h (ms, f) (List.mem_cons_self _ _)) heoe
    simp only [runGets, hcall]
    rw [runGets_eoe ew st heoe rest
      fun p hp => h p (List.mem_cons_of_mem _ hp)]
    simp

theorem finalNps_eq_last (c : List (String × Nat)) (f : Minibatch) :
    ∀ {ms : List (String × MatrixInfo)} {e : String × MatrixInfo}
      (nps : Nat), ms.getLast? = some e →
      finalNps c f ms nps = streamNpsOf c f e.1
  | [], e, nps, h => by simp at h
  | [x], e, nps, h => by
    simp only [List.getLast?_singleton, Option.some.injEq] at h
    subst h
    rfl
  | x :: y :: rest, e, nps, h => by
    rw [List.getLast?_cons_cons] at h
    exact finalNps_eq_last c f (streamNpsOf c f x.1) h

theorem str_ext {s t : String} (h : s.data = t.data) : s = t := by
  cases s
  cases t
  exact congrArg String.mk h

/-- The source's `EnumerateInputs` produces exactly the format the
specification describes: each valid name double-quoted, names separated by
commas, in the map's order. -/
theorem enumerateInputs_eq_spec :
    ∀ m : List (String × Nat), EnumerateInputs m = quotedJoinSpec m := by
  have aux : ∀ (rest : List (String × Nat)) (s : String × Nat),
      EnumerateInputsAux false (s :: rest) =
        ", " ++ quotedJoinSpec (s :: rest) := by
    intro rest
    induction rest with
    | nil =>
      intro s
      apply str_ext
      simp [EnumerateInputsAux, quotedJoinSpec, String.data_append]
    | cons r rest ih =>
      intro s
      show (if false then "" else ", ") ++ "\"" ++ s.1 ++ "\"" ++
          EnumerateInputsAux false (r :: rest) = _
      rw [ih r]
      apply str_ext
      simp [quotedJoinSpec, String.data_append]
  intro m
  cases m with
  | nil => rfl
  | cons s rest =>
    show (if true then "" else ", ") ++ "\"" ++ s.1 ++ "\"" ++
        EnumerateInputsAux false rest = _
    cases rest with
    | nil =>
      apply str_ext
      simp [EnumerateInputsAux, quotedJoinSpec, String.data_append]
    | cons r rest2 =>
      rw [aux rest2 r]
      apply str_ext
      simp [quotedJoinSpec, String.data_append]

/-- In a clean epoch run (no batch signals end-of-epoch, every destination
decodes), the task producing batch `k + i + 1` is launched, and the launch
immediately precedes the return of call `k + i`. -/
theorem runTrace_adj (ew : Nat) (ms : List (String × MatrixInfo))
    (C : List (String × Nat)) (S : List StreamDescription)
    (hdev : (ms.any fun mx => mx.2.deviceId !=
        ((ms.head?.map fun mx => mx.2.deviceId).getD 0)) = false) :
    ∀ (bs : List Minibatch) (st : ShimState) (k : Nat),
    st.nameToStreamId = C → st.streams = S →
    st.endOfEpoch = false → st.prefetchValid = true →
    ms.length = C.length →
    (∀ b ∈ bs, b.endOfEpoch = false ∧
      ∀ e ∈ ms, ExceptOk (decodeOne C S ew b e).2 = true) →
    ∀ i, i < bs.length → ∃ pre suf,
      runTrace ew ms st k bs =
        pre ++ TEvent.launch (k + i + 1) :: TEvent.callReturn (k + i) :: suf
  | [], st, k, _, _, _, _, _, _, i, hi => absurd hi (by simp)
  | b :: bs, st, k, hC, hS, heoe, hpf, hc, hb, i, hi => by
    have hbb := hb b (List.mem_cons_self _ _)
    have hpost := getMinibatch_post ew st ms b (by rw [hC, hc]) heoe hdev
      hpf (by rw [hC, hS]; exact hbb.2)
    obtain ⟨hres, hevs, _, hseoe, hspf, hsC, hsS, _⟩ := hpost
    rw [hbb.1] at hevs hseoe hspf
    simp only [Bool.not_false, ite_false, Bool.false_eq_true] at hevs hspf
    simp only [runTrace, hres, hevs, tagEvents, List.map_cons, List.map_nil]
    cases i with
    | zero =>
      refine ⟨[TEvent.fetch k],
        runTrace ew ms (GetMinibatch ew st ms b).state (k + 1) bs, by simp⟩
    | succ j =>
      have hj : j < bs.length := by
        simpa using Nat.lt_of_succ_lt_succ hi
      obtain ⟨pre, suf, hrec⟩ := runTrace_adj ew ms C S hdev bs
        (GetMinibatch ew st ms b).state (k + 1) (by rw [hsC, hC])
        (by rw [hsS, hS]) hseoe hspf hc
        (fun x hx => hb x (List.mem_cons_of_mem _ hx)) j hj
      refine ⟨TEvent.fetch k :: TEvent.launch (k + 1) ::
        TEvent.callReturn k :: pre, suf, ?_⟩
      rw [hrec]
      have h1 : k + 1 + j + 1 = k + (j + 1) + 1 := by omega
      have h2 : k + 1 + j = k + (j + 1) := by omega
      rw [h1, h2]
      simp

theorem fill_error {storageType ew : Nat} {deviceId : Int} {numRows : Nat}
    {stream : StreamMinibatch} {e : ShimError}
    (h : FillMatrixFromStream storageType ew deviceId numRows stream =
      .error e) : e = .unsupportedStorage storageType := by
  simp only [FillMatrixFromStream] at h
  split at h
  · simp at h
  · split at h
    · simp at h
    · simp only [Except.error.injEq] at h
      exact h.symm

/-- C1: once a fetched batch has latched `m_endOfEpoch`, every subsequent
`GetMinibatch` call (with a well-sized destination map) returns `false`
immediately, with no producer-visible event, no destination write, and no
state change — for an arbitrary sequence of such calls — until
`StartMinibatchLoop`/`StartDistributedMinibatchLoop` starts a new epoch,
which resets the flag to `false` and launches production of the first
batch. -/
theorem claim_C1_end_of_epoch_latch (ew : Nat) (st : ShimState)
    (inputs : List (List (String × MatrixInfo) × Minibatch))
    (heoe : st.endOfEpoch = true)
    (hc : ∀ p ∈ inputs, p.1.length = st.nameToStreamId.length) :
    runGets ew st inputs = (st, [], inputs.map fun _ => .ok false) ∧
    (StartDistributedMinibatchLoop st).1.endOfEpoch = false ∧
    (StartDistributedMinibatchLoop st).2 = [Event.launchRead] ∧
    StartMinibatchLoop st = StartDistributedMinibatchLoop st :=
  ⟨runGets_eoe ew st heoe inputs hc, rfl, rfl, rfl⟩

/-- Witness for C1: a latched one-stream state and two subsequent calls,
both returning `false` with no event and no state change. -/
theorem claim_C1_witness :
    runGets 4 ⟨[("a", 0)], [⟨"a", 0, 2, 0⟩], true, 1, false⟩
        [([("a", ⟨0, 0⟩)], ⟨false, []⟩), ([("a", ⟨0, 0⟩)], ⟨true, []⟩)] =
      (⟨[("a", 0)], [⟨"a", 0, 2, 0⟩], true, 1, false⟩, [],
        [.ok false, .ok false]) ∧
    (StartDistributedMinibatchLoop
      ⟨[("a", 0)], [⟨"a", 0, 2, 0⟩], true, 1, false⟩).1.endOfEpoch = false ∧
    (StartDistributedMinibatchLoop
      ⟨[("a", 0)], [⟨"a", 0, 2, 0⟩], true, 1, false⟩).2 =
      [Event.launchRead] ∧
    StartMinibatchLoop ⟨[("a", 0)], [⟨"a", 0, 2, 0⟩], true, 1, false⟩ =
      StartDistributedMinibatchLoop
        ⟨[("a", 0)], [⟨"a", 0, 2, 0⟩], true, 1, false⟩ :=
  claim_C1_end_of_epoch_latch 4 _ _ rfl (by decide)

/-- C2: a `GetMinibatch` call whose fetched batch does not signal
end-of-epoch launches production of the next batch before it returns (the
launch is the last event of the call itself); consequently, in a clean
epoch trace, the task producing the batch consumed by call `k + 1` is
launched immediately before — in particular strictly before — call `k`
returns. -/
theorem claim_C2_overlap (ew : Nat) (st : ShimState)
    (ms : List (String × MatrixInfo)) (batches : List Minibatch)
    (heoe : st.endOfEpoch = false) (hpf : st.prefetchValid = true)
    (hc : ms.length = st.nameToStreamId.length)
    (hdev : (ms.any fun mx => mx.2.deviceId !=
        ((ms.head?.map fun mx => mx.2.deviceId).getD 0)) = false)
    (hb : ∀ b ∈ batches, b.endOfEpoch = false ∧
      ∀ e ∈ ms, ExceptOk
        (decodeOne st.nameToStreamId st.streams ew b e).2 = true) :
    (∀ b ∈ batches, (GetMinibatch ew st ms b).events =
      [Event.fetchGet, Event.launchRead]) ∧
    (∀ k, k < batches.length → ∃ pre suf,
      epochTrace ew st ms batches =
        pre ++ TEvent.launch (k + 1) :: TEvent.callReturn k :: suf) := by
  constructor
  · intro b hbmem
    have hevs := (getMinibatch_post ew st ms b hc heoe hdev hpf
      (hb b hbmem).2).2.1
    rw [(hb b hbmem).1] at hevs
    simpa using hevs
  · intro k hk
    obtain ⟨pre, suf, h⟩ := runTrace_adj ew ms st.nameToStreamId st.streams
      hdev batches (StartDistributedMinibatchLoop st).1 0 rfl rfl rfl rfl
      hc hb k hk
    refine ⟨TEvent.launch 0 :: pre, suf, ?_⟩
    show TEvent.launch 0 :: runTrace ew ms
      (StartDistributedMinibatchLoop st).1 0 batches = _
    rw [h]
    simp

/-- Witness for C2: one stream, two clean batches; the call events and the
adjacency of `launch 1` with the return of call 0 are exhibited. -/
theorem claim_C2_witness :
    (∀ b ∈ [(⟨false, [⟨1, 1, [7, 0, 0, 0]⟩]⟩ : Minibatch),
        ⟨false, [⟨1, 1, [8, 0, 0, 0]⟩]⟩],
      (GetMinibatch 4 ⟨[("a", 0)], [⟨"a", 0, 1, 0⟩], false, 1, true⟩
        [("a", ⟨0, 0⟩)] b).events =
        [Event.fetchGet, Event.launchRead]) ∧
    (∀ k, k < [(⟨false, [⟨1, 1, [7, 0, 0, 0]⟩]⟩ : Minibatch),
        ⟨false, [⟨1, 1, [8, 0, 0, 0]⟩]⟩].length → ∃ pre suf,
      epochTrace 4 ⟨[("a", 0)], [⟨"a", 0, 1, 0⟩], false, 1, true⟩
          [("a", ⟨0, 0⟩)]
          [⟨false, [⟨1, 1, [7, 0, 0, 0]⟩]⟩,
            ⟨false, [⟨1, 1, [8, 0, 0, 0]⟩]⟩] =
        pre ++ TEvent.launch (k + 1) :: TEvent.callReturn k :: suf) :=
  claim_C2_overlap 4 ⟨[("a", 0)], [⟨"a", 0, 1, 0⟩], false, 1, true⟩
    [("a", ⟨0, 0⟩)]
    [⟨false, [⟨1, 1, [7, 0, 0, 0]⟩]⟩, ⟨false, [⟨1, 1, [8, 0, 0, 0]⟩]⟩]
    rfl rfl rfl (by decide) (by decide)

/-- C4: a `GetMinibatch` call whose destination count differs from the
catalog size fails with the count-mismatch error carrying both counts, with
nothing else happening — in particular the check precedes the end-of-epoch
early return, since the state (including a latched `m_endOfEpoch`) is
arbitrary here and the call never returns `false`. -/
theorem claim_C4_count_check_first (ew : Nat) (st : ShimState)
    (ms : List (String × MatrixInfo)) (fetched : Minibatch)
    (h : ms.length ≠ st.nameToStreamId.length) :
    GetMinibatch ew st ms fetched =
      ⟨.error (.countMismatch ms.length st.nameToStreamId.length),
        st, [], []⟩ := by
  simp only [GetMinibatch, if_pos h]

/-- Witness for C4: 2 destinations against 3 catalog streams, in a state
whose `m_endOfEpoch` is latched `true` — the call still reports the
count-mismatch error `2` vs `3` rather than returning `false`. -/
theorem claim_C4_witness :
    GetMinibatch 4
        ⟨[("a", 0), ("b", 1), ("c", 2)],
          [⟨"a", 0, 2, 0⟩, ⟨"b", 1, 2, 0⟩, ⟨"c", 2, 2, 0⟩], true, 1, true⟩
        [("a", ⟨0, 0⟩), ("b", ⟨0, 0⟩)] ⟨false, []⟩ =
      ⟨.error (.countMismatch 2 3),
        ⟨[("a", 0), ("b", 1), ("c", 2)],
          [⟨"a", 0, 2, 0⟩, ⟨"b", 1, 2, 0⟩, ⟨"c", 2, 2, 0⟩], true, 1, true⟩,
        [], []⟩ :=
  claim_C4_count_check_first 4 _ _ _ (by decide)

/-- C3: for a stream whose storage type is SparseCSC, the decoder parses the
payload as, in order, a leading `nnz` count at offset 0, then `nnz`
contiguous element values, then `nnz` contiguous row indices, then the
column offsets (stated as a round trip against the specified wire layout
`encodeSparseCSC`), and installs the three arrays plus `nnz` as a sparse
CSC matrix whose row count is the stream's declared sample element count
and whose column count is the batch layout's column count; any storage type
other than Dense or SparseCSC fails with the unsupported-storage error
reporting the offending type value. -/
theorem claim_C3_sparse_decode (catalog : List (String × Nat))
    (streams : List StreamDescription) (ew : Nat) (fetched : Minibatch)
    (name : String) (mi : MatrixInfo) (streamId nps numCols nnz : Nat)
    (values rows cols : List Nat)
    (hres : mapFind catalog name = some streamId)
    (hstream : fetched.data.getD streamId default =
      ⟨nps, numCols, encodeSparseCSC ew nnz values rows cols⟩)
    (hsparse : (streams.getD streamId default).storageType =
      StorageType.sparse_csc)
    (hsize : mi.numRows = 0 ∨
      mi.numRows = (streams.getD streamId default).sampleLayoutNumElements)
    (hv : values.length = nnz) (hr : rows.length = nnz)
    (hc : cols.length = numCols + 1) (hnnz : nnz < 256 ^ sizeTWidth)
    (hvb : ∀ v ∈ values, v < 256 ^ ew)
    (hrb : ∀ v ∈ rows, v < 256 ^ indexWidth)
    (hcb : ∀ v ∈ cols, v < 256 ^ indexWidth) :
    decodeOne catalog streams ew fetched (name, mi) =
      (some nps, .ok (name, .sparseCSC cols rows values nnz
        (streams.getD streamId default).sampleLayoutNumElements numCols)) ∧
    ∀ t, t ≠ StorageType.dense → t ≠ StorageType.sparse_csc →
      FillMatrixFromStream t ew mi.deviceId mi.numRows
        (fetched.data.getD streamId default) =
        .error (.unsupportedStorage t) := by
  constructor
  · have hnosize : ¬(mi.numRows > 0 ∧ mi.numRows ≠
        (streams.getD streamId default).sampleLayoutNumElements) := by
      rcases hsize with hz | he
      · intro hcon
        rw [hz] at hcon
        exact absurd hcon.1 (Nat.lt_irrefl 0)
      · intro hcon
        exact hcon.2 he
    simp only [decodeOne, hres, hstream, hsparse]
    rw [if_neg (by simpa using hnosize)]
    rw [fill_sparse ew _ mi.deviceId nps numCols nnz values rows cols
      hv hr hc hnnz hvb hrb hcb]
  · intro t ht1 ht2
    simp only [FillMatrixFromStream]
    rw [if_neg ht1, if_neg ht2]

/-- Witness for C3: the specification's sparse round-trip example — nnz 2,
values `[5, 9]`, row indices `[1, 3]`, column offsets `[0, 1, 2, 2]` for a
4×3 matrix — decodes to exactly those arrays, and storage type 2 fails. -/
theorem claim_C3_witness :
    mapFind [("x", 0)] "x" = some 0 ∧
    (decodeOne [("x", 0)] [⟨"x", 0, 4, 1⟩] 4
        ⟨false, [⟨1, 3, encodeSparseCSC 4 2 [5, 9] [1, 3] [0, 1, 2, 2]⟩]⟩
        ("x", ⟨0, 0⟩) =
      (some 1, .ok ("x", .sparseCSC [0, 1, 2, 2] [1, 3] [5, 9] 2 4 3)) ∧
    ∀ t, t ≠ StorageType.dense → t ≠ StorageType.sparse_csc →
      FillMatrixFromStream t 4 0 0
        ((⟨false, [⟨1, 3,
          encodeSparseCSC 4 2 [5, 9] [1, 3] [0, 1, 2, 2]⟩]⟩ :
            Minibatch).data.getD 0 default) =
        .error (.unsupportedStorage t)) :=
  ⟨rfl, claim_C3_sparse_decode [("x", 0)] [⟨"x", 0, 4, 1⟩] 4
    ⟨false, [⟨1, 3, encodeSparseCSC 4 2 [5, 9] [1, 3] [0, 1, 2, 2]⟩]⟩
    "x" ⟨0, 0⟩ 0 1 3 2 [5, 9] [1, 3] [0, 1, 2, 2] rfl rfl rfl
    (Or.inl rfl) rfl rfl rfl (by norm_num [sizeTWidth]) (by decide)
    (by decide) (by decide)⟩

/-- C5 counterexample: with catalog `{"a", "b"}` and destinations
`{"a", "wrong"}`, the call does fail with the unknown-input error
enumerating `"a", "b"` — but the destination `"a"`, processed first, has
already been decoded and written when the unresolved name `"wrong"` is
detected, refuting the claim that no destination is written before every
declared name has been checked. -/
theorem claim_C5_counterexample :
    (GetMinibatch 4
        ⟨[("a", 0), ("b", 1)], [⟨"a", 0, 2, 0⟩, ⟨"b", 1, 2, 0⟩],
          false, 1, true⟩
        [("a", ⟨0, 0⟩), ("wrong", ⟨0, 0⟩)]
        ⟨false, [⟨1, 1, [1, 0, 0, 0, 2, 0, 0, 0]⟩, ⟨1, 1, []⟩]⟩).result =
      .error (.unknownInput "wrong" "\"a\", \"b\"") ∧
    (GetMinibatch 4
        ⟨[("a", 0), ("b", 1)], [⟨"a", 0, 2, 0⟩, ⟨"b", 1, 2, 0⟩],
          false, 1, true⟩
        [("a", ⟨0, 0⟩), ("wrong", ⟨0, 0⟩)]
        ⟨false, [⟨1, 1, [1, 0, 0, 0, 2, 0, 0, 0]⟩, ⟨1, 1, []⟩]⟩).writes =
      [("a", .dense 2 1 0 [1, 2])] :=
  ⟨rfl, rfl⟩

/-- C5 amended: name checking is interleaved with decoding, not a pure
pre-pass — each destination's name is resolved immediately before that
destination is decoded, in iteration order; an unresolved name fails the
call with the unknown-input error enumerating all valid catalog names
(double-quoted, comma-separated, in the map's sorted order, as the
`quotedJoinSpec` equation states), but every destination earlier in the
order has already been decoded and written by then. -/
theorem claim_C5_amended (ew : Nat) (st : ShimState)
    (pre post : List (String × MatrixInfo)) (name : String)
    (mi : MatrixInfo) (fetched : Minibatch)
    (hc : (pre ++ (name, mi) :: post).length = st.nameToStreamId.length)
    (heoe : st.endOfEpoch = false) (hpf : st.prefetchValid = true)
    (hdev : ((pre ++ (name, mi) :: post).any fun mx => mx.2.deviceId !=
        (((pre ++ (name, mi) :: post).head?.map
          fun mx => mx.2.deviceId).getD 0)) = false)
    (hne : fetched.data.isEmpty = false)
    (hpre : ∀ e ∈ pre, ExceptOk
        (decodeOne st.nameToStreamId st.streams ew fetched e).2 = true)
    (hname : mapFind st.nameToStreamId name = none) :
    (GetMinibatch ew st (pre ++ (name, mi) :: post) fetched).result =
      .error (.unknownInput name (EnumerateInputs st.nameToStreamId)) ∧
    (GetMinibatch ew st
        (pre ++ (name, mi) :: post) fetched).writes.length = pre.length ∧
    EnumerateInputs st.nameToStreamId = quotedJoinSpec st.nameToStreamId := by
  have herr : (decodeOne st.nameToStreamId st.streams ew fetched
      (name, mi)).2 =
      .error (.unknownInput name (EnumerateInputs st.nameToStreamId)) := by
    simp [decodeOne, hname]
  obtain ⟨hl1, hl2⟩ := decodeLoop_error herr post st.numParallelSequences
    hpre
  refine ⟨?_, ?_, enumerateInputs_eq_spec _⟩ <;>
    cases hfe : fetched.endOfEpoch <;>
      simp only [GetMinibatch, hc, heoe, hdev, hpf, hfe, hne, ne_eq,
        not_true_eq_false, Bool.false_eq_true, if_false, ite_false,
        ite_true, Bool.not_true, Bool.false_and, Bool.true_and,
        Bool.and_self, Bool.and_false, Bool.and_true, if_true,
        Bool.not_false, hl1, hl2]

/-- Witness for C5 amended: the counterexample scenario via the amended
statement — one earlier destination already written (writes length 1). -/
theorem claim_C5_witness :
    (GetMinibatch 4
        ⟨[("a", 0), ("b", 1)], [⟨"a", 0, 2, 0⟩, ⟨"b", 1, 2, 0⟩],
          false, 2, true⟩
        ([("a", ⟨0, 0⟩)] ++ ("wrong", (⟨0, 0⟩ : MatrixInfo)) :: [])
        ⟨false, [⟨1, 1, [1, 0, 0, 0, 2, 0, 0, 0]⟩, ⟨1, 1, []⟩]⟩).result =
      .error (.unknownInput "wrong"
        (EnumerateInputs [("a", 0), ("b", 1)])) ∧
    (GetMinibatch 4
        ⟨[("a", 0), ("b", 1)], [⟨"a", 0, 2, 0⟩, ⟨"b", 1, 2, 0⟩],
          false, 2, true⟩
        ([("a", ⟨0, 0⟩)] ++ ("wrong", (⟨0, 0⟩ : MatrixInfo)) :: [])
        ⟨false,
          [⟨1, 1, [1, 0, 0, 0, 2, 0, 0, 0]⟩, ⟨1, 1, []⟩]⟩).writes.length =
      [("a", (⟨0, 0⟩ : MatrixInfo))].length ∧
    EnumerateInputs [("a", 0), ("b", 1)] =
      quotedJoinSpec [("a", 0), ("b", 1)] :=
  claim_C5_amended 4
    ⟨[("a", 0), ("b", 1)], [⟨"a", 0, 2, 0⟩, ⟨"b", 1, 2, 0⟩], false, 2, true⟩
    [("a", ⟨0, 0⟩)] [] "wrong" ⟨0, 0⟩
    ⟨false, [⟨1, 1, [1, 0, 0, 0, 2, 0, 0, 0]⟩, ⟨1, 1, []⟩]⟩
    rfl rfl rfl (by decide) rfl (by decide) rfl

/-- C6 counterexample: a producer declaring two streams both named `"a"`
(ids 0 and 1) does not make `Init` fail — the catalog is built anyway, the
`std::map::insert` silently keeps only the first stream's id, and the
second declared stream's id 1 is dropped, refuting both that construction
fails on duplicates and that each name maps to each declared stream's
id. -/
theorem claim_C6_counterexample :
    initNameToStreamId [⟨"a", 0, 5, 0⟩, ⟨"a", 1, 7, 1⟩] = [("a", 0)] ∧
    (Init [1] [⟨"a", 0, 5, 0⟩, ⟨"a", 1, 7, 1⟩]
        default).nameToStreamId = [("a", 0)] ∧
    mapFind (initNameToStreamId [⟨"a", 0, 5, 0⟩, ⟨"a", 1, 7, 1⟩]) "a" ≠
      some 1 :=
  ⟨rfl, rfl, by decide⟩

/-- C6 amended: `Init` never fails on duplicate names; because
`std::map::insert` does not overwrite, the constructed catalog's names are
pairwise distinct and each name maps to the id of the first stream declared
with that name (later duplicates are silently ignored). -/
theorem claim_C6_amended (ss : List StreamDescription) (q : String) :
    (initNameToStreamId ss).Pairwise (fun a b => a.1 ≠ b.1) ∧
    mapFind (initNameToStreamId ss) q =
      (ss.find? fun s => s.name == q).map StreamDescription.id :=
  ⟨(initNameToStreamId_sorted ss).imp fun h => strLt_ne h,
    mapFind_init ss q⟩

/-- C7: a destination whose name resolves fails with the
sample-size-mismatch error — carrying the stream's sample element count and
the destination's declared row count — exactly when the destination's
previously-declared row count is non-zero and differs from the stream's
declared sample element count; a destination with row count 0 never
triggers this error. -/
theorem claim_C7_size_mismatch_iff (catalog : List (String × Nat))
    (streams : List StreamDescription) (ew : Nat) (fetched : Minibatch)
    (name : String) (mi : MatrixInfo) (streamId : Nat)
    (hres : mapFind catalog name = some streamId) :
    (decodeOne catalog streams ew fetched (name, mi)).2 =
      .error (.sizeMismatch
        (streams.getD streamId default).sampleLayoutNumElements name
        mi.numRows) ↔
    mi.numRows ≠ 0 ∧
      mi.numRows ≠ (streams.getD streamId default).sampleLayoutNumElements
    := by
  simp only [decodeOne, hres]
  by_cases hcond : mi.numRows > 0 ∧ mi.numRows ≠
      (streams.getD streamId default).sampleLayoutNumElements
  · rw [if_pos hcond]
    exact iff_of_true rfl ⟨Nat.pos_iff_ne_zero.mp hcond.1, hcond.2⟩
  · rw [if_neg hcond]
    apply iff_of_false
    · cases hf : FillMatrixFromStream
          (streams.getD streamId default).storageType ew mi.deviceId
          (streams.getD streamId default).sampleLayoutNumElements
          (fetched.data.getD streamId default) with
      | ok c => simp [hf]
      | error e =>
        have he := fill_error hf
        subst he
        simp [hf]
    · intro hcon
      exact hcond ⟨Nat.pos_of_ne_zero hcon.1, hcon.2⟩

/-- Witness for C7: a destination pre-declaring 10 rows against a stream
declaring 8 sample elements triggers the mismatch citing 8 and 10, and the
same destination with row count 0 is accepted. -/
theorem claim_C7_witness :
    ((decodeOne [("a", 0)] [⟨"a", 0, 8, 0⟩] 4 ⟨false, [⟨1, 1, []⟩]⟩
        ("a", ⟨0, 10⟩)).2 = .error (.sizeMismatch 8 "a" 10) ↔
      (10 : Nat) ≠ 0 ∧ (10 : Nat) ≠ 8) ∧
    ((decodeOne [("a", 0)] [⟨"a", 0, 8, 0⟩] 4 ⟨false, [⟨1, 1, []⟩]⟩
        ("a", ⟨0, 0⟩)).2 = .error (.sizeMismatch 8 "a" 0) ↔
      (0 : Nat) ≠ 0 ∧ (0 : Nat) ≠ 8) :=
  ⟨claim_C7_size_mismatch_iff [("a", 0)] [⟨"a", 0, 8, 0⟩] 4
      ⟨false, [⟨1, 1, []⟩]⟩ "a" ⟨0, 10⟩ 0 rfl,
    claim_C7_size_mismatch_iff [("a", 0)] [⟨"a", 0, 8, 0⟩] 4
      ⟨false, [⟨1, 1, []⟩]⟩ "a" ⟨0, 0⟩ 0 rfl⟩

/-- C8 counterexample: two destinations reporting different device ids (0
and 1) do not make the call fail when `m_endOfEpoch` is latched — the
end-of-epoch early return fires before the device check, so the call
returns `false` without any error, refuting "for every GetMinibatch call in
which two destinations report different device identifiers, the call
fails". -/
theorem claim_C8_counterexample :
    (GetMinibatch 4
        ⟨[("a", 0), ("b", 1)], [⟨"a", 0, 2, 0⟩, ⟨"b", 1, 2, 0⟩],
          true, 1, false⟩
        [("a", ⟨0, 0⟩), ("b", ⟨1, 0⟩)] ⟨false, []⟩).result = .ok false ∧
    (GetMinibatch 4
        ⟨[("a", 0), ("b", 1)], [⟨"a", 0, 2, 0⟩, ⟨"b", 1, 2, 0⟩],
          true, 1, false⟩
        [("a", ⟨0, 0⟩), ("b", ⟨1, 0⟩)] ⟨false, []⟩).events = [] :=
  ⟨rfl, rfl⟩

/-- C8 amended: a `GetMinibatch` call that passes the count check and is
not in the latched end-of-epoch state fails fatally (the `assert(false)`
aborts) when any destination reports a device id different from the first
destination's, with no event and no write. -/
theorem claim_C8_amended (ew : Nat) (st : ShimState)
    (ms : List (String × MatrixInfo)) (fetched : Minibatch)
    (hc : ms.length = st.nameToStreamId.length)
    (heoe : st.endOfEpoch = false)
    (hdev : (ms.any fun mx => mx.2.deviceId !=
        ((ms.head?.map fun mx => mx.2.deviceId).getD 0)) = true) :
    GetMinibatch ew st ms fetched =
      ⟨.error .assertionFailure, st, [], []⟩ := by
  simp only [GetMinibatch, hc, heoe, hdev, ne_eq, not_true_eq_false,
    Bool.false_eq_true, if_false, ite_false, ite_true, if_true]

/-- Witness for C8 amended: the device-mismatch scenario with
`m_endOfEpoch` not latched — the call fails with the assertion. -/
theorem claim_C8_witness :
    GetMinibatch 4
        ⟨[("a", 0), ("b", 1)], [⟨"a", 0, 2, 0⟩, ⟨"b", 1, 2, 0⟩],
          false, 1, true⟩
        [("a", ⟨0, 0⟩), ("b", ⟨1, 0⟩)] ⟨false, []⟩ =
      ⟨.error .assertionFailure,
        ⟨[("a", 0), ("b", 1)], [⟨"a", 0, 2, 0⟩, ⟨"b", 1, 2, 0⟩],
          false, 1, true⟩, [], []⟩ :=
  claim_C8_amended 4 _ _ _ rfl rfl (by decide)

/-- C9: a call that proceeds past validation and the end-of-epoch early
return (and whose destinations all decode) returns `true` exactly when the
fetched batch's data is non-empty: a terminal batch carrying end-of-epoch
together with non-empty data is fully decoded (one write per destination)
and still returns `true`, while an empty batch returns `false`. -/
theorem claim_C9_return_value (ew : Nat) (st : ShimState)
    (ms : List (String × MatrixInfo)) (fetched : Minibatch)
    (hc : ms.length = st.nameToStreamId.length)
    (heoe : st.endOfEpoch = false)
    (hdev : (ms.any fun mx => mx.2.deviceId !=
        ((ms.head?.map fun mx => mx.2.deviceId).getD 0)) = false)
    (hpf : st.prefetchValid = true)
    (hok : ∀ e ∈ ms, ExceptOk
        (decodeOne st.nameToStreamId st.streams ew fetched e).2 = true) :
    (GetMinibatch ew st ms fetched).result = .ok (!fetched.data.isEmpty) ∧
    (fetched.data.isEmpty = false →
      (GetMinibatch ew st ms fetched).writes.length = ms.length) := by
  have hpost := getMinibatch_post ew st ms fetched hc heoe hdev hpf hok
  refine ⟨hpost.1, fun hne => ?_⟩
  rw [hpost.2.2.1, if_neg (by simp [hne])]

/-- Witness for C9: a terminal batch (end-of-epoch `true`) with non-empty
data returns `true` and fills the destination. -/
theorem claim_C9_witness :
    (GetMinibatch 4 ⟨[("a", 0)], [⟨"a", 0, 1, 0⟩], false, 1, true⟩
        [("a", ⟨0, 0⟩)] ⟨true, [⟨1, 1, [7, 0, 0, 0]⟩]⟩).result =
      .ok (!(⟨true, [⟨1, 1, [7, 0, 0, 0]⟩]⟩ : Minibatch).data.isEmpty) ∧
    ((⟨true, [⟨1, 1, [7, 0, 0, 0]⟩]⟩ : Minibatch).data.isEmpty = false →
      (GetMinibatch 4 ⟨[("a", 0)], [⟨"a", 0, 1, 0⟩], false, 1, true⟩
        [("a", ⟨0, 0⟩)] ⟨true, [⟨1, 1, [7, 0, 0, 0]⟩]⟩).writes.length =
        [("a", (⟨0, 0⟩ : MatrixInfo))].length) :=
  claim_C9_return_value 4 ⟨[("a", 0)], [⟨"a", 0, 1, 0⟩], false, 1, true⟩
    [("a", ⟨0, 0⟩)] ⟨true, [⟨1, 1, [7, 0, 0, 0]⟩]⟩ rfl rfl (by decide) rfl
    (by decide)

/-- C10: right after `Init`, `GetNumParallelSequences` returns the first
entry of the configured `nbruttsineachrecurrentiter` array (1 for the
default `[1]`) regardless of the prior member values — a well-defined
initialized value; after a successful data-bearing `GetMinibatch`, it
returns the parallel-sequence count of the layout of the stream resolved
for the last destination processed in that call. -/
theorem claim_C10_num_parallel_sequences (ew : Nat) (nbrutts : List Nat)
    (streams : List StreamDescription) (st0 st : ShimState)
    (ms : List (String × MatrixInfo)) (fetched : Minibatch)
    (e : String × MatrixInfo)
    (hc : ms.length = st.nameToStreamId.length)
    (heoe : st.endOfEpoch = false)
    (hdev : (ms.any fun mx => mx.2.deviceId !=
        ((ms.head?.map fun mx => mx.2.deviceId).getD 0)) = false)
    (hpf : st.prefetchValid = true)
    (hok : ∀ x ∈ ms, ExceptOk
        (decodeOne st.nameToStreamId st.streams ew fetched x).2 = true)
    (hne : fetched.data.isEmpty = false)
    (hlast : ms.getLast? = some e) :
    GetNumParallelSequences (Init nbrutts streams st0) = nbrutts.headD 0 ∧
    GetNumParallelSequences (Init [1] streams st0) = 1 ∧
    GetNumParallelSequences (GetMinibatch ew st ms fetched).state =
      streamNpsOf st.nameToStreamId fetched e.1 := by
  refine ⟨rfl, rfl, ?_⟩
  have hpost := getMinibatch_post ew st ms fetched hc heoe hdev hpf hok
  rw [GetNumParallelSequences, hpost.2.2.2.2.2.2.2,
    if_neg (by simp [hne])]
  exact finalNps_eq_last st.nameToStreamId fetched
    st.numParallelSequences hlast

/-- Witness for C10: a fresh `Init` with the default `[1]` and a junk prior
state returns 1; after decoding a two-destination batch, the count is that
of the last destination's stream layout (5, not the first stream's 3). -/
theorem claim_C10_witness :
    GetNumParallelSequences (Init [2, 7] [⟨"a", 0, 1, 0⟩]
      ⟨[], [], false, 99, false⟩) = [2, 7].headD 0 ∧
    GetNumParallelSequences (Init [1] [⟨"a", 0, 1, 0⟩]
      ⟨[], [], false, 99, false⟩) = 1 ∧
    GetNumParallelSequences (GetMinibatch 4
        ⟨[("a", 0), ("b", 1)], [⟨"a", 0, 1, 0⟩, ⟨"b", 1, 1, 0⟩],
          false, 1, true⟩
        [("a", ⟨0, 0⟩), ("b", ⟨0, 0⟩)]
        ⟨false, [⟨3, 1, [7, 0, 0, 0]⟩, ⟨5, 1, [8, 0, 0, 0]⟩]⟩).state =
      streamNpsOf [("a", 0), ("b", 1)]
        ⟨false, [⟨3, 1, [7, 0, 0, 0]⟩, ⟨5, 1, [8, 0, 0, 0]⟩]⟩ "b" :=
  claim_C10_num_parallel_sequences 4 [2, 7] [⟨"a", 0, 1, 0⟩]
    ⟨[], [], false, 99, false⟩
    ⟨[("a", 0), ("b", 1)], [⟨"a", 0, 1, 0⟩, ⟨"b", 1, 1, 0⟩],
      false, 1, true⟩
    [("a", ⟨0, 0⟩), ("b", ⟨0, 0⟩)]
    ⟨false, [⟨3, 1, [7, 0, 0, 0]⟩, ⟨5, 1, [8, 0, 0, 0]⟩]⟩
    ("b", ⟨0, 0⟩) rfl rfl (by decide) rfl (by decide) rfl rfl

end ReaderShimModel
